import Mathlib

/-!
Verification of the feed retrieval and normalization pipeline of the
rss-proxy-api repository.  The JavaScript sources are shallowly embedded:
pure JS functions become Lean functions over `String` and `List`, the
stateful HTTP handlers become pure functions from an explicit environment
(the outcomes of the external fetch / parse collaborators) and the current
cache state to a result record, and possibly-`undefined` JS values are
modelled with `Option`.
-/

set_option maxRecDepth 4000

namespace RssProxy

/-! ## JavaScript string primitives

JS `String.prototype.trim` removes leading and trailing whitespace; we model
the whitespace class with `Char.isWhitespace` (space, tab, LF, CR), which
covers every character appearing in the repository's data.
-/

def wsChar (c : Char) : Bool := c.isWhitespace

def trimList (l : List Char) : List Char :=
  ((l.dropWhile wsChar).reverse.dropWhile wsChar).reverse

def jsTrim (s : String) : String := String.mk (trimList s.data)

def jsStartsWith (s p : String) : Bool := p.data.isPrefixOf s.data

def jsEndsWith (s p : String) : Bool := p.data.isSuffixOf s.data

/-- Substring occurrence test on character lists (JS `String.prototype.includes`). -/
def containsSub (l p : List Char) : Bool :=
  p.isPrefixOf l ||
    match l with
    | [] => false
    | _ :: cs => containsSub cs p

def jsIncludes (s p : String) : Bool := containsSub s.data p.data

/-- JS `s.substring(0, n)` (all arguments in the sources are within bounds). -/
def jsSubstring (s : String) (n : Nat) : String := String.mk (s.data.take n)

/-- JS `a || b` for a possibly-`undefined` string `a`: `undefined` and the
empty string are falsy. -/
def jsOrD (a : Option String) (b : String) : String :=
  match a with
  | none => b
  | some s => if s = "" then b else s

/-- JS `a || b` where the fallback may itself be `undefined`. -/
def jsOrO (a b : Option String) : Option String :=
  match a with
  | none => b
  | some s => if s = "" then b else some s

/-- JS truthiness of a possibly-`undefined` string. -/
def jsTruthyS (a : Option String) : Bool :=
  match a with
  | none => false
  | some s => !(s = "")

/-- JS `s.replace(pat, rep)` with a string pattern: replace the first
occurrence only. -/
def replaceFirstList (l pat rep : List Char) : List Char :=
  match l with
  | [] => if pat = [] then rep else []
  | c :: cs =>
      if pat.isPrefixOf (c :: cs) then rep ++ (c :: cs).drop pat.length
      else c :: replaceFirstList cs pat rep

def jsReplaceFirst (s pat rep : String) : String :=
  String.mk (replaceFirstList s.data pat.data rep.data)

/-! ## `normalizeImageUrl` (api-node-backup/rss.js lines 183-200) -/

/-- Direct translation of `normalizeImageUrl`: falsy input yields the empty
string; otherwise the input is trimmed, scheme-relative input gets
`https:` prepended, input without an `http://` or `https://` scheme gets
`https://` prepended, anything else is returned (trimmed). -/
def normalizeImageUrl (url : String) : String :=
  if url = "" then ""
  else
    let u := jsTrim url
    if jsStartsWith u "//" then "https:" ++ u
    else if !(jsStartsWith u "http://") && !(jsStartsWith u "https://") then "https://" ++ u
    else u

example : normalizeImageUrl "//example.com/x.jpg" = "https://example.com/x.jpg" := by decide
example : normalizeImageUrl "example.com/x.jpg" = "https://example.com/x.jpg" := by decide
example : normalizeImageUrl "http://a/b.png" = "http://a/b.png" := by decide
example : normalizeImageUrl "" = "" := by decide
example : normalizeImageUrl " " = "https://" := by decide
example : normalizeImageUrl "//a " = "https://a" := by decide

/-! ### Whitespace-trimming facts -/

theorem dropWhile_idem (p : Char → Bool) (l : List Char) :
    (l.dropWhile p).dropWhile p = l.dropWhile p := by
  induction l with
  | nil => rfl
  | cons a l ih =>
      by_cases h : p a
      · simpa [List.dropWhile_cons_of_pos h] using ih
      · simp [List.dropWhile_cons_of_neg h]

def noLeadWs (l : List Char) : Prop := l.dropWhile wsChar = l

def noTrailWs (l : List Char) : Prop := l.reverse.dropWhile wsChar = l.reverse

theorem noLeadWs_of_isPrefix {l t : List Char} (h : noLeadWs l) (hp : t <+: l) :
    noLeadWs t := by
  cases t with
  | nil => rfl
  | cons a t' =>
      have ha : ¬ wsChar a := by
        intro hws
        obtain ⟨r, hr⟩ := hp
        unfold noLeadWs at h
        rw [← hr, List.cons_append, List.dropWhile_cons_of_pos hws] at h
        have hle : ((t' ++ r).dropWhile wsChar).length ≤ (t' ++ r).length :=
          (List.dropWhile_sublist wsChar).length_le
        rw [h] at hle
        simp at hle
      exact List.dropWhile_cons_of_neg ha

theorem trimList_noLead (l : List Char) : noLeadWs (trimList l) := by
  have h1 : noLeadWs (l.dropWhile wsChar) := dropWhile_idem wsChar l
  have hs : (l.dropWhile wsChar).reverse.dropWhile wsChar <:+ (l.dropWhile wsChar).reverse :=
    List.dropWhile_suffix wsChar
  have h2 := List.reverse_prefix.mpr hs
  rw [List.reverse_reverse] at h2
  exact noLeadWs_of_isPrefix h1 h2

theorem trimList_noTrail (l : List Char) : noTrailWs (trimList l) := by
  unfold noTrailWs trimList
  simp only [List.reverse_reverse]
  exact dropWhile_idem wsChar _

theorem trimList_eq_self {l : List Char} (h1 : noLeadWs l) (h2 : noTrailWs l) :
    trimList l = l := by
  unfold trimList
  rw [h1, h2, List.reverse_reverse]

theorem trimList_idem (l : List Char) : trimList (trimList l) = trimList l :=
  trimList_eq_self (trimList_noLead l) (trimList_noTrail l)

theorem jsTrim_idem (s : String) : jsTrim (jsTrim s) = jsTrim s :=
  String.ext (trimList_idem s.data)

theorem noLeadWs_jsTrim (s : String) : noLeadWs (jsTrim s).data := trimList_noLead s.data

theorem noTrailWs_jsTrim (s : String) : noTrailWs (jsTrim s).data := trimList_noTrail s.data

theorem string_ne_empty {s : String} (h : s.data ≠ []) : s ≠ "" := fun he => h (by rw [he])

theorem noLeadWs_cons {a : Char} (l : List Char) (h : ¬ wsChar a) : noLeadWs (a :: l) :=
  List.dropWhile_cons_of_neg h

theorem noTrailWs_append (l : List Char) {t : List Char} (h : noTrailWs t) (hne : t ≠ []) :
    noTrailWs (l ++ t) := by
  unfold noTrailWs at h ⊢
  rw [List.reverse_append, List.dropWhile_append, h]
  have hrev : t.reverse.isEmpty = false := by
    cases t with
    | nil => exact absurd rfl hne
    | cons a t' => simp
  simp [hrev]

theorem jsTrim_fix_of_data {s : String} (h1 : noLeadWs s.data) (h2 : noTrailWs s.data) :
    jsTrim s = s :=
  String.ext (trimList_eq_self h1 h2)

theorem jsStartsWith_data {s p : String} (h : jsStartsWith s p = true) :
    ∃ r, s.data = p.data ++ r := by
  obtain ⟨r, hr⟩ := List.isPrefixOf_iff_prefix.mp h
  exact ⟨r, hr.symm⟩

/-! ### `normalizeImageUrl` fixed points and branch analysis -/

theorem jsTrim_https1 (s : String) (hne : (jsTrim s).data ≠ []) :
    jsTrim ("https:" ++ jsTrim s) = "https:" ++ jsTrim s := by
  apply jsTrim_fix_of_data
  · have hd : ("https:" ++ jsTrim s).data = 'h' :: ("ttps:".data ++ (jsTrim s).data) := by
      rw [String.data_append]; rfl
    rw [hd]
    exact noLeadWs_cons _ (by decide)
  · rw [String.data_append]
    exact noTrailWs_append _ (noTrailWs_jsTrim s) hne

theorem jsTrim_https2 (s : String) :
    jsTrim ("https://" ++ jsTrim s) = "https://" ++ jsTrim s := by
  rcases h : (jsTrim s).data with _ | ⟨c, rest⟩
  · have he : jsTrim s = "" := String.ext h
    rw [he]
    decide
  · apply jsTrim_fix_of_data
    · have hd : ("https://" ++ jsTrim s).data = 'h' :: ("ttps://".data ++ (jsTrim s).data) := by
        rw [String.data_append]; rfl
      rw [hd]
      exact noLeadWs_cons _ (by decide)
    · rw [String.data_append]
      exact noTrailWs_append _ (noTrailWs_jsTrim s) (by rw [h]; simp)

theorem normalizeImageUrl_cases (s : String) (hs : s ≠ "") :
    (jsStartsWith (jsTrim s) "//" = true ∧ normalizeImageUrl s = "https:" ++ jsTrim s) ∨
    (jsStartsWith (jsTrim s) "//" = false ∧ jsStartsWith (jsTrim s) "http://" = false ∧
      jsStartsWith (jsTrim s) "https://" = false ∧
      normalizeImageUrl s = "https://" ++ jsTrim s) ∨
    (jsStartsWith (jsTrim s) "//" = false ∧
      (jsStartsWith (jsTrim s) "http://" = true ∨ jsStartsWith (jsTrim s) "https://" = true) ∧
      normalizeImageUrl s = jsTrim s) := by
  unfold normalizeImageUrl
  rw [if_neg hs]
  rcases h1 : jsStartsWith (jsTrim s) "//" with _ | _
  · rcases h2 : jsStartsWith (jsTrim s) "http://" with _ | _
    · rcases h3 : jsStartsWith (jsTrim s) "https://" with _ | _
      · exact Or.inr (Or.inl ⟨rfl, rfl, rfl, by simp [h1, h2, h3]⟩)
      · exact Or.inr (Or.inr ⟨rfl, Or.inr rfl, by simp [h1, h2, h3]⟩)
    · exact Or.inr (Or.inr ⟨rfl, Or.inl rfl, by simp [h1, h2]⟩)
  · exact Or.inl ⟨rfl, by simp [h1]⟩

theorem startsNot_dslash {s : String} (c : Char) (l : List Char) (hd : s.data = c :: l)
    (hc : (('/' : Char) == c) = false) : jsStartsWith s "//" = false := by
  show ['/', '/'].isPrefixOf s.data = false
  rw [hd]
  simp [List.isPrefixOf, hc]

theorem https_block (u : String) (r : List Char) (hu : u.data = '/' :: '/' :: r) :
    ("https:" ++ u).data = 'h' :: 't' :: 't' :: 'p' :: 's' :: ':' :: '/' :: '/' :: r := by
  rw [String.data_append, hu]; rfl

theorem https_block2 (u : String) :
    ("https://" ++ u).data = 'h' :: 't' :: 't' :: 'p' :: 's' :: ':' :: '/' :: '/' :: u.data := by
  rw [String.data_append]; rfl

theorem starts_http_of_block {s : String} (r : List Char)
    (hd : s.data = 'h' :: 't' :: 't' :: 'p' :: 's' :: ':' :: '/' :: '/' :: r) :
    jsStartsWith s "http://" = false ∧ jsStartsWith s "https://" = true := by
  constructor
  · show ['h', 't', 't', 'p', ':', '/', '/'].isPrefixOf s.data = false
    rw [hd]
    simp [List.isPrefixOf]
  · show ['h', 't', 't', 'p', 's', ':', '/', '/'].isPrefixOf s.data = true
    rw [hd]
    simp [List.isPrefixOf]

/-- `normalizeImageUrl` is idempotent on every input: each of its outputs is a
fixed point of the function. -/
theorem normalizeImageUrl_idem (s : String) :
    normalizeImageUrl (normalizeImageUrl s) = normalizeImageUrl s := by
  by_cases hs : s = ""
  · subst hs; rfl
  rcases normalizeImageUrl_cases s hs with ⟨h1, he⟩ | ⟨h1, h2, h3, he⟩ | ⟨h1, hor, he⟩
  · -- output: "https:" ++ trimmed input, which begins with "https://"
    obtain ⟨r, hr⟩ := jsStartsWith_data h1
    have hr' : (jsTrim s).data = '/' :: '/' :: r := hr
    have hne : (jsTrim s).data ≠ [] := by rw [hr']; simp
    have hd := https_block (jsTrim s) r hr'
    have hfix := jsTrim_https1 s hne
    have hs1 := startsNot_dslash 'h' _ hd (by decide)
    obtain ⟨hs2, hs3⟩ := starts_http_of_block r hd
    have hout : "https:" ++ jsTrim s ≠ "" := string_ne_empty (by rw [hd]; simp)
    rw [he]
    unfold normalizeImageUrl
    rw [if_neg hout, hfix]
    simp [hs1, hs2, hs3]
  · -- output: "https://" ++ trimmed input
    have hd := https_block2 (jsTrim s)
    have hfix := jsTrim_https2 s
    have hs1 := startsNot_dslash 'h' _ hd (by decide)
    obtain ⟨hs2, hs3⟩ := starts_http_of_block (jsTrim s).data hd
    have hout : "https://" ++ jsTrim s ≠ "" := string_ne_empty (by rw [hd]; simp)
    rw [he]
    unfold normalizeImageUrl
    rw [if_neg hout, hfix]
    simp [hs1, hs2, hs3]
  · -- output: the trimmed input, which already carries a scheme
    have hne : jsTrim s ≠ "" := by
      rcases hor with h2 | h2 <;>
        · obtain ⟨r, hr⟩ := jsStartsWith_data h2
          exact string_ne_empty (by rw [hr]; simp)
    rw [he]
    unfold normalizeImageUrl
    rw [if_neg hne, jsTrim_idem]
    rcases hor with h2 | h2
    · simp [h1, h2]
    · simp [h1, h2]

/-! ## Claims C2, C8, C9 about `normalizeImageUrl` -/

/-- C2 counterexample: for the scheme-relative input with a trailing blank,
the function does not prepend `https:` to the input itself (as the claim
states) but to its trimmed form. -/
theorem claimC2_cex :
    normalizeImageUrl "//a " = "https://a" ∧
    normalizeImageUrl "//a " ≠ "https:" ++ "//a " := by
  constructor
  · rfl
  · decide

/-- C2 (amended): `normalizeImageUrl` is pure and total and satisfies the
four-case specification applied to the *trimmed* input: empty input yields
the empty string; otherwise, with `t` the input trimmed of surrounding
whitespace: `t` starting with `//` yields `https:` prepended to `t`; `t`
missing an `http://`/`https://` scheme yields `https://` prepended to `t`;
any other input yields `t` itself. -/
theorem claimC2 (s : String) :
    (s = "" → normalizeImageUrl s = "") ∧
    (s ≠ "" → jsStartsWith (jsTrim s) "//" = true →
      normalizeImageUrl s = "https:" ++ jsTrim s) ∧
    (s ≠ "" → jsStartsWith (jsTrim s) "//" = false →
      jsStartsWith (jsTrim s) "http://" = false →
      jsStartsWith (jsTrim s) "https://" = false →
      normalizeImageUrl s = "https://" ++ jsTrim s) ∧
    (s ≠ "" → jsStartsWith (jsTrim s) "//" = false →
      (jsStartsWith (jsTrim s) "http://" = true ∨ jsStartsWith (jsTrim s) "https://" = true) →
      normalizeImageUrl s = jsTrim s) := by
  refine ⟨fun h => by subst h; rfl, fun hs h1 => ?_, fun hs h1 h2 h3 => ?_, fun hs h1 hor => ?_⟩
  · rcases normalizeImageUrl_cases s hs with ⟨_, he⟩ | ⟨g1, _⟩ | ⟨g1, _⟩
    · exact he
    · rw [h1] at g1; exact absurd g1 (by simp)
    · rw [h1] at g1; exact absurd g1 (by simp)
  · rcases normalizeImageUrl_cases s hs with ⟨g1, _⟩ | ⟨_, _, _, he⟩ | ⟨_, gor, _⟩
    · rw [h1] at g1; exact absurd g1 (by simp)
    · exact he
    · rcases gor with g | g
      · rw [h2] at g; exact absurd g (by simp)
      · rw [h3] at g; exact absurd g (by simp)
  · rcases normalizeImageUrl_cases s hs with ⟨g1, _⟩ | ⟨_, g2, g3, _⟩ | ⟨_, _, he⟩
    · rw [h1] at g1; exact absurd g1 (by simp)
    · rcases hor with h | h
      · rw [h] at g2; exact absurd g2 (by simp)
      · rw [h] at g3; exact absurd g3 (by simp)
    · exact he

theorem claimC2_wit :
    ("//x" : String) ≠ "" ∧ jsStartsWith (jsTrim "//x") "//" = true ∧
    normalizeImageUrl "//x" = "https:" ++ jsTrim "//x" :=
  ⟨by decide, by decide, (claimC2 "//x").2.1 (by decide) (by decide)⟩

/-- C8: on every input whose (trim-invariant) text is an absolute `http` or
`https` URL, `normalizeImageUrl` is idempotent; in fact every output of the
function is a fixed point. -/
theorem claimC8 (u : String)
    (h : jsStartsWith u "http://" = true ∨ jsStartsWith u "https://" = true) :
    normalizeImageUrl (normalizeImageUrl u) = normalizeImageUrl u :=
  normalizeImageUrl_idem u

theorem claimC8_wit :
    (jsStartsWith "http://example.com/a.jpg" "http://" = true ∨
      jsStartsWith "http://example.com/a.jpg" "https://" = true) ∧
    normalizeImageUrl (normalizeImageUrl "http://example.com/a.jpg") =
      normalizeImageUrl "http://example.com/a.jpg" :=
  ⟨Or.inl (by decide), claimC8 "http://example.com/a.jpg" (Or.inl (by decide))⟩

/-- C9 counterexample: on the non-empty whitespace-only input the function
output differs from its output on the trimmed input, so the claimed equation
`normalizeImageUrl s = normalizeImageUrl (trim s)` fails for a non-empty
`s`. -/
theorem claimC9_cex :
    (" " : String) ≠ "" ∧
    normalizeImageUrl " " = "https://" ∧
    normalizeImageUrl (jsTrim " ") = "" ∧
    normalizeImageUrl " " ≠ normalizeImageUrl (jsTrim " ") := by
  refine ⟨by decide, rfl, by decide, by decide⟩

/-- C9 (amended): `normalizeImageUrl` trims before classifying, its output
never carries surrounding whitespace, and it agrees with its value on the
trimmed input for every string whose trimmed form is non-empty (the
whitespace-only strings are the sole exception: they map to `https://`
while their trimmed form maps to the empty string). -/
theorem claimC9 (s : String) :
    jsTrim (normalizeImageUrl s) = normalizeImageUrl s ∧
    (jsTrim s ≠ "" → normalizeImageUrl s = normalizeImageUrl (jsTrim s)) := by
  constructor
  · by_cases hs : s = ""
    · subst hs; decide
    rcases normalizeImageUrl_cases s hs with ⟨h1, he⟩ | ⟨h1, h2, h3, he⟩ | ⟨h1, hor, he⟩
    · rw [he]
      obtain ⟨r, hr⟩ := jsStartsWith_data h1
      exact jsTrim_https1 s (by rw [hr]; simp)
    · rw [he]; exact jsTrim_https2 s
    · rw [he]; exact jsTrim_idem s
  · intro h
    have hs : s ≠ "" := by
      intro he
      exact h (by rw [he]; rfl)
    unfold normalizeImageUrl
    rw [if_neg hs, if_neg h, jsTrim_idem]

theorem claimC9_wit :
    jsTrim " https://a.com/b.jpg " ≠ "" ∧
    jsTrim (normalizeImageUrl " https://a.com/b.jpg ") =
      normalizeImageUrl " https://a.com/b.jpg " ∧
    normalizeImageUrl " https://a.com/b.jpg " =
      normalizeImageUrl (jsTrim " https://a.com/b.jpg ") :=
  ⟨by decide, (claimC9 " https://a.com/b.jpg ").1,
    (claimC9 " https://a.com/b.jpg ").2 (by decide)⟩

/-! ## Parsed-XML value model

xml2js is configured with `explicitArray: false`, `trim: true`,
`explicitRoot: false`, `mergeAttrs: true`: a field that occurs once is a
scalar (string or attribute-merged object with text under the `_` key), a
repeated field is a non-empty array.  Possibly-absent JS values are
`Option`; `OneOrMany` models the scalar-or-array ambiguity that the
normalizer resolves with `Array.isArray` checks.
-/

inductive OneOrMany (α : Type) where
  | one (a : α)
  | many (l : List α)
deriving DecidableEq, Repr

/-- A text node that is either a plain string or an object whose text (if
any) sits under the `_` key. -/
inductive TextVal where
  | str (s : String)
  | obj (underscore : Option String)
deriving DecidableEq, Repr

/-- JS `typeof v === 'object' ? v._ : v`. -/
def TextVal.unwrap : TextVal → Option String
  | .str s => some s
  | .obj u => u

/-- JS truthiness of a possibly-absent `TextVal`: `undefined` and the empty
string are falsy, every object is truthy. -/
def jsTruthyT : Option TextVal → Bool
  | none => false
  | some (.str s) => !(s = "")
  | some (.obj _) => true

structure EnclosureObj where
  url : Option String
  type : Option String
deriving DecidableEq, Repr

structure MediaObj where
  url : Option String
  medium : Option String
deriving DecidableEq, Repr

structure LinkObj where
  rel : Option String
  href : Option String
  type : Option String
deriving DecidableEq, Repr

structure AuthorObj where
  name : Option String
deriving DecidableEq, Repr

structure ImageObjR where
  url : Option String
deriving DecidableEq, Repr

inductive RssImage where
  | str (s : String)
  | obj (o : ImageObjR)
deriving DecidableEq, Repr

/-- An RSS `<category>`: plain string or object with text under `_`. -/
inductive RssCat where
  | str (s : String)
  | obj (underscore : Option String)
deriving DecidableEq, Repr

/-- `typeof cat === 'object' ? (cat._ || '') : cat` -/
def rssCatText : RssCat → String
  | .str s => s
  | .obj u => jsOrD u ""

structure AtomCatObj where
  term : Option String
  label : Option String
deriving DecidableEq, Repr

inductive AtomCat where
  | str (s : String)
  | obj (o : AtomCatObj)
deriving DecidableEq, Repr

/-- `typeof cat === 'object' ? (cat.term || cat.label || '') : cat` -/
def atomCatText : AtomCat → String
  | .str s => s
  | .obj o => jsOrD o.term (jsOrD o.label "")

structure RssItem where
  guid : Option TextVal
  title : Option String
  link : Option String
  contentEncoded : Option String
  description : Option String
  pubDate : Option String
  date : Option String
  category : Option (OneOrMany RssCat)
  author : Option String
  dcCreator : Option String
  enclosure : Option (OneOrMany EnclosureObj)
  mediaContent : Option (OneOrMany MediaObj)
  mediaThumbnail : Option (OneOrMany MediaObj)
  image : Option RssImage
deriving DecidableEq, Repr

structure RssChannel where
  title : Option String
  description : Option String
  link : Option String
  item : Option (OneOrMany RssItem)
deriving DecidableEq, Repr

structure RssObj where
  channel : Option RssChannel
deriving DecidableEq, Repr

structure AtomEntry where
  id : Option String
  title : Option TextVal
  link : Option (OneOrMany LinkObj)
  content : Option TextVal
  summary : Option TextVal
  category : Option (OneOrMany AtomCat)
  published : Option String
  updated : Option String
  issued : Option String
  author : Option AuthorObj
  icon : Option String
  logo : Option String
  mediaThumbnail : Option MediaObj
  mediaContent : Option (OneOrMany MediaObj)
deriving DecidableEq, Repr

structure AtomFeedObj where
  title : Option TextVal
  subtitle : Option String
  tagline : Option String
  entry : Option (OneOrMany AtomEntry)
deriving DecidableEq, Repr

structure ParsedDoc where
  feed : Option AtomFeedObj
  rss : Option RssObj
  channel : Option RssChannel
deriving DecidableEq, Repr

/-! ## Normalized output shape -/

structure FeedItem where
  id : Option String
  title : Option String
  link : Option String
  content : Option String
  description : Option String
  imageUrl : String
  pubDate : String
  categories : List String
  author : String
  sourceName : Option String
deriving DecidableEq, Repr

structure NormalizedFeed where
  feedType : String
  title : Option String
  description : Option String
  link : Option String
  items : List FeedItem
deriving DecidableEq, Repr

/-! ## HTML heuristics: tag stripping and first-image scraping -/

/-- Drop characters up to and including the first `>`; `none` when there is
no `>` (the regex `[^>]+>` cannot close). -/
def dropToGt : List Char → Option (List Char)
  | [] => none
  | c :: cs => if c = '>' then some cs else dropToGt cs

/-- Given the text after a `<`, consume a `/[^>]+>/` match: at least one
non-`>` character followed by `>`. -/
def tagEnd : List Char → Option (List Char)
  | [] => none
  | c' :: cs' => if c' = '>' then none else dropToGt (c' :: cs')

/-- One fuel unit per consumed character; the wrapper passes the list length
as fuel, which a global left-to-right scan never exhausts. -/
def stripTagsFuel : Nat → List Char → List Char
  | _, [] => []
  | 0, l => l
  | fuel + 1, c :: cs =>
      if c = '<' then
        match tagEnd cs with
        | some rest => ' ' :: stripTagsFuel fuel rest
        | none => c :: stripTagsFuel fuel cs
      else c :: stripTagsFuel fuel cs

/-- JS `s.replace(/<[^>]+>/g, ' ')`: every tag-shaped run becomes a single
space. -/
def stripTagsList (l : List Char) : List Char := stripTagsFuel l.length l

/-- Read the `([^"]+)` capture group up to a closing quote. -/
def scanCapture (l : List Char) : Option String :=
  let cap := l.takeWhile (fun c => !(c = '"'))
  if cap.isEmpty then none
  else if cap.length = l.length then none
  else some (String.mk cap)

/-- All remainders after an occurrence of the literal `src="` that the
`[^>]+` run can reach (every character before the occurrence is non-`>`),
in text order. -/
def srcCandidates : List Char → List (List Char)
  | [] => []
  | c :: cs =>
      if ['s', 'r', 'c', '=', '"'].isPrefixOf (c :: cs) then
        ((c :: cs).drop 5) :: srcCandidates cs
      else if c = '>' then []
      else srcCandidates cs

/-- Match attempt for the tail after a literal `<img`: the greedy `[^>]+`
run must be non-empty (so an occurrence may start at offset 1 at the
earliest) and backtracking tries the candidate `src="` occurrences from the
last one backwards, settling on the first whose `([^"]+)"` capture
succeeds. -/
def imgTagMatch : List Char → Option String
  | [] => none
  | c0 :: rest =>
      if c0 = '>' then none
      else ((srcCandidates rest).reverse).findSome? scanCapture

/-- JS `/<img[^>]+src="([^"]+)"/.exec(html)`: capture of the first `<img`
occurrence admitting a match (the repository only consumes the first
capture, `imgMatch[1]`). -/
def imgScrapeList : List Char → Option String
  | [] => none
  | c :: cs =>
      if ['<', 'i', 'm', 'g'].isPrefixOf (c :: cs) then
        match imgTagMatch ((c :: cs).drop 4) with
        | some cap => some cap
        | none => imgScrapeList cs
      else imgScrapeList cs

/-! ## `findImageInRssItem` (rss.js lines 384-428) -/

def rssEnclosureImage (item : RssItem) : Option String :=
  match item.enclosure with
  | none => none
  | some (.many l) =>
      (l.find? (fun enc => jsTruthyS enc.type &&
        jsStartsWith (enc.type.getD "") "image/" && jsTruthyS enc.url)).map
        (fun e => e.url.getD "")
  | some (.one e) =>
      if jsTruthyS e.url && (!(jsTruthyS e.type) || jsStartsWith (e.type.getD "") "image/") then
        some (e.url.getD "")
      else none

def rssMediaContentImage (item : RssItem) : Option String :=
  match item.mediaContent with
  | none => none
  | some (.many l) =>
      (l.find? (fun m => (!(jsTruthyS m.medium) || m.medium == some "image") &&
        jsTruthyS m.url)).map (fun m => m.url.getD "")
  | some (.one m) => if jsTruthyS m.url then some (m.url.getD "") else none

def rssMediaThumbImage (item : RssItem) : Option String :=
  match item.mediaThumbnail with
  | none => none
  | some (.many []) => none
  | some (.many (m0 :: _)) => if jsTruthyS m0.url then some (m0.url.getD "") else none
  | some (.one m) => if jsTruthyS m.url then some (m.url.getD "") else none

def rssImageFieldImage (item : RssItem) : Option String :=
  match item.image with
  | none => none
  | some (.obj o) => if jsTruthyS o.url then some (o.url.getD "") else none
  | some (.str s) => if s = "" then none else some s

def findImageInRssItem (item : RssItem) : String :=
  (rssEnclosureImage item <|> rssMediaContentImage item <|>
    rssMediaThumbImage item <|> rssImageFieldImage item).getD ""

/-! ## `findImageInAtomEntry` (rss.js lines 431-471) -/

def atomLinkImage (entry : AtomEntry) : Option String :=
  match entry.link with
  | none => none
  | some (.many l) =>
      (l.find? (fun lk => ((lk.rel == some "enclosure") || (lk.rel == some "image")) &&
        ((jsTruthyS lk.type && jsStartsWith (lk.type.getD "") "image/") || !(jsTruthyS lk.type)) &&
        jsTruthyS lk.href)).map (fun lk => lk.href.getD "")
  | some (.one lk) =>
      if jsTruthyS lk.rel && ((lk.rel == some "enclosure") || (lk.rel == some "image")) &&
          jsTruthyS lk.href then
        some (lk.href.getD "")
      else none

def atomIconLogoImage (entry : AtomEntry) : Option String :=
  (if jsTruthyS entry.icon then some (entry.icon.getD "") else none) <|>
    (if jsTruthyS entry.logo then some (entry.logo.getD "") else none)

def atomMediaThumbImage (entry : AtomEntry) : Option String :=
  match entry.mediaThumbnail with
  | none => none
  | some m => if jsTruthyS m.url then some (m.url.getD "") else none

def atomMediaContentImage (entry : AtomEntry) : Option String :=
  match entry.mediaContent with
  | none => none
  | some (.many l) =>
      (l.find? (fun m => (!(jsTruthyS m.medium) || m.medium == some "image") &&
        jsTruthyS m.url)).map (fun m => m.url.getD "")
  | some (.one m) => if jsTruthyS m.url then some (m.url.getD "") else none

def findImageInAtomEntry (entry : AtomEntry) : String :=
  (atomLinkImage entry <|> atomIconLogoImage entry <|>
    atomMediaThumbImage entry <|> atomMediaContentImage entry).getD ""

/-! ## `normalizeRssFeed` (rss.js lines 314-381) -/

/-- `item.guid ? (typeof item.guid === 'object' ? item.guid._ : item.guid) : item.link` -/
def rssItemId (item : RssItem) : Option String :=
  match item.guid with
  | none => item.link
  | some (.str s) => if s = "" then item.link else some s
  | some (.obj u) => u

def rssMapItem (title : String) (nowIso : String) (item : RssItem) : FeedItem :=
  let iu0 := findImageInRssItem item
  let iu1 :=
    if iu0 = "" && jsTruthyS item.description then
      match imgScrapeList (item.description.getD "").data with
      | some m => m
      | none => iu0
    else iu0
  let categories : List String :=
    match item.category with
    | none => []
    | some (.many l) => l.map rssCatText
    | some (.one c) => [rssCatText c]
  { id := rssItemId item,
    title := item.title,
    link := item.link,
    content := some (jsOrD item.contentEncoded (jsOrD item.description "")),
    description := some (jsOrD item.description ""),
    imageUrl := normalizeImageUrl iu1,
    pubDate := jsOrD item.pubDate (jsOrD item.date nowIso),
    categories := categories,
    author := jsOrD item.author (jsOrD item.dcCreator ""),
    sourceName := some title }

def normalizeRssFeed (pd : ParsedDoc) (feedUrl : String) (nowIso : String) :
    Option NormalizedFeed :=
  let channel := match pd.rss with
    | some r => r.channel
    | none => pd.channel
  match channel with
  | none => none
  | some ch =>
      let title := jsOrD ch.title "Feed senza titolo"
      let rawItems := match ch.item with
        | none => []
        | some (.many l) => l
        | some (.one it) => [it]
      some { feedType := "rss",
             title := some title,
             description := some (jsOrD ch.description ""),
             link := some (jsOrD ch.link feedUrl),
             items := rawItems.map (rssMapItem title nowIso) }

/-! ## `normalizeAtomFeed` (rss.js lines 203-311) -/

/-- `feed.title && typeof feed.title === 'object' ? feed.title._
    : feed.title || 'Feed senza titolo'` -/
def atomFeedTitle : Option TextVal → Option String
  | some (.obj u) => u
  | some (.str s) => some (if s = "" then "Feed senza titolo" else s)
  | none => some "Feed senza titolo"

def atomArticleLink (entry : AtomEntry) : Option String :=
  let step1 : Option String :=
    match entry.link with
    | none => some ""
    | some (.many l) =>
        match l.find? (fun lk => lk.rel == some "alternate") with
        | some alt => alt.href
        | none =>
            match l with
            | [] => some ""
            | l0 :: _ => some (jsOrD l0.href "")
    | some (.one lk) => some (jsOrD lk.href "")
  if !(jsTruthyS step1) && jsTruthyS entry.id && jsStartsWith (entry.id.getD "") "http" then
    entry.id
  else step1

/-- The `let content = ''` variable after the `if (entry.content)` guard. -/
def atomContentVar (entry : AtomEntry) : Option String :=
  match entry.content with
  | none => some ""
  | some tv => if jsTruthyT (some tv) then tv.unwrap else some ""

def atomMapEntry (title : Option String) (nowIso : String) (entry : AtomEntry) : FeedItem :=
  let articleLink := atomArticleLink entry
  let iu0 := findImageInAtomEntry entry
  let iu1 :=
    if iu0 = "" && jsTruthyT entry.content then
      match (entry.content.bind TextVal.unwrap) with
      | some c =>
          if !(c = "") then
            match imgScrapeList c.data with
            | some m => m
            | none => iu0
          else iu0
      | none => iu0
    else iu0
  let contentV := atomContentVar entry
  let description : Option String :=
    if jsTruthyT entry.summary then entry.summary.bind TextVal.unwrap
    else if jsTruthyS contentV then
      some (jsSubstring (String.mk (stripTagsList (contentV.getD "").data)) 200 ++ "...")
    else some ""
  let categories : List String :=
    match entry.category with
    | none => []
    | some (.many l) => l.map atomCatText
    | some (.one c) => [atomCatText c]
  { id := jsOrO entry.id articleLink,
    title := entry.title.bind TextVal.unwrap,
    link := articleLink,
    content := contentV,
    description := description,
    imageUrl := normalizeImageUrl iu1,
    pubDate := jsOrD entry.published (jsOrD entry.updated (jsOrD entry.issued nowIso)),
    categories := categories,
    author := match entry.author with | some a => jsOrD a.name "" | none => "",
    sourceName := title }

def normalizeAtomFeed (pd : ParsedDoc) (feedUrl : String) (nowIso : String) :
    Option NormalizedFeed :=
  match pd.feed with
  | none => none
  | some feed =>
      let title := atomFeedTitle feed.title
      let entries := match feed.entry with
        | none => []
        | some (.many l) => l
        | some (.one e) => [e]
      some { feedType := "atom",
             title := title,
             description := some (jsOrD feed.subtitle (jsOrD feed.tagline "")),
             link := some feedUrl,
             items := entries.map (atomMapEntry title nowIso) }

/-! ## `normalizeFeed` (rss.js lines 149-180)

The xml2js parser is an external collaborator: the environment supplies it
as a function from the raw body to an optional `ParsedDoc` (`none` models a
parser exception).
-/

def normalizeFeed (xmlData : String) (feedUrl : String)
    (parse : String → Option ParsedDoc) (nowIso : String) : Option NormalizedFeed :=
  let isAtom := jsIncludes xmlData "<feed" &&
    (jsIncludes xmlData "xmlns=\"http://www.w3.org/2005/Atom\"" ||
     jsIncludes xmlData "xmlns=\"http://purl.org/atom/")
  match parse xmlData with
  | none => none
  | some pd =>
      if isAtom then normalizeAtomFeed pd feedUrl nowIso
      else normalizeRssFeed pd feedUrl nowIso

/-! ## RSSBridge fallback normalization (rss.js lines 474-569) -/

structure BridgeItem where
  uid : Option String
  uri : Option String
  title : Option String
  content : Option String
  timestamp : Option Nat
  categories : Option (List String)
  author : Option String
  enclosures : Option (List String)
deriving DecidableEq, Repr

structure BridgeData where
  title : Option String
  description : Option String
  items : List BridgeItem
deriving DecidableEq, Repr

/-- The per-domain bridge selection table: default `FeedExtractor`, with
dedicated bridges for three publisher domains. -/
def bridgeName (hostname : String) : String :=
  if jsIncludes hostname "repubblica.it" then "Repubblica"
  else if jsIncludes hostname "ansa.it" then "Ansa"
  else if jsIncludes hostname "corriere.it" then "Corriere"
  else "FeedExtractor"

/-- `new Date(item.timestamp * 1000).toISOString()` is an external date
formatter, supplied by the environment as `isoOfTs`. -/
def bridgeMapItem (dataTitle : Option String) (hostname : String) (isoOfTs : Nat → String)
    (nowIso : String) (item : BridgeItem) : FeedItem :=
  let imageUrl :=
    match item.enclosures with
    | some (e0 :: _) => normalizeImageUrl e0
    | _ => ""
  { id := jsOrO item.uid item.uri,
    title := item.title,
    link := item.uri,
    content := some (jsOrD item.content ""),
    description :=
      some (if jsTruthyS item.content then jsSubstring (item.content.getD "") 200 ++ "..."
            else ""),
    imageUrl := imageUrl,
    pubDate := match item.timestamp with
      | some t => if t = 0 then nowIso else isoOfTs t
      | none => nowIso,
    categories := item.categories.getD [],
    author := jsOrD item.author "",
    sourceName := some (jsOrD dataTitle (jsReplaceFirst hostname "www." "")) }

def bridgeNormalize (data : BridgeData) (feedUrl : String) (hostname : String)
    (isoOfTs : Nat → String) (nowIso : String) : NormalizedFeed :=
  { feedType := "rssbridge",
    title := some (jsOrD data.title "Feed da RSSBridge"),
    description := some (jsOrD data.description ""),
    link := some feedUrl,
    items := data.items.map (bridgeMapItem data.title hostname isoOfTs nowIso) }

/-! ## JS `Map` model

A JS `Map` preserves insertion order; `set` on an existing key updates the
value in place, otherwise appends.  We model it as an association list.
-/

def jsMapGet {κ α : Type} [DecidableEq κ] (m : List (κ × α)) (k : κ) : Option α :=
  (m.find? (fun e => e.1 == k)).map (fun e => e.2)

def jsMapSet {κ α : Type} [DecidableEq κ] (m : List (κ × α)) (k : κ) (v : α) :
    List (κ × α) :=
  if (m.find? (fun e => e.1 == k)).isSome then
    m.map (fun e => if e.1 == k then (k, v) else e)
  else m ++ [(k, v)]

def jsMapDelete {κ α : Type} [DecidableEq κ] (m : List (κ × α)) (k : κ) :
    List (κ × α) :=
  m.filter (fun e => !(e.1 == k))

/-! ## The feed handler (api-node-backup/rss.js module.exports)

The external collaborators (node-fetch for the direct and bridge requests,
xml2js, `new URL`, the clock and the ISO date formatter) are supplied as a
`FetchEnv`; `decodeURIComponent` is modelled as the identity (the query is
taken as already decoded).  `directFetch = some body` means the direct fetch
resolved with `response.ok` and that text body; `none` collapses a network
error, a timeout and a non-2xx status, which take the same catch path.
`bridgeHost = none` models `new URL(feedUrl)` throwing; `bridgeFetch = some
data` means the bridge fetch resolved ok with a JSON body carrying an
`items` array; `none` collapses every other bridge failure, all of which
reach the same catch and the same 404 response.  `attempted` instruments
the embedding with the strategies entered, in order.
-/

structure CacheEntry where
  data : NormalizedFeed
  timestamp : Nat
deriving DecidableEq, Repr

def CACHE_TTL : Nat := 15 * 60 * 1000

inductive Strategy where
  | direct
  | rssbridge
deriving DecidableEq, Repr

inductive RespBody where
  | feedBody (f : NormalizedFeed)
  | errorBody (m : String)
  | emptyBody
deriving DecidableEq, Repr

structure FetchEnv where
  directFetch : Option String
  parseXml : String → Option ParsedDoc
  bridgeHost : Option String
  bridgeFetch : Option BridgeData
  nowMs : Nat
  nowIso : String
  isoOfTs : Nat → String

structure RssQuery where
  url : Option String
  debug : Option String
  bypassCache : Option String
deriving DecidableEq, Repr

structure HandlerResult where
  status : Nat
  xcache : Option String
  xsource : Option String
  body : RespBody
  cacheAfter : List (String × CacheEntry)
  attempted : List Strategy
deriving DecidableEq, Repr

def tryRssBridgeFallback (feedUrl : String) (env : FetchEnv)
    (cache : List (String × CacheEntry)) : HandlerResult :=
  match env.bridgeHost with
  | none =>
      { status := 404, xcache := none, xsource := none,
        body := .errorBody "Impossibile recuperare il feed",
        cacheAfter := cache, attempted := [.rssbridge] }
  | some host =>
      match env.bridgeFetch with
      | none =>
          { status := 404, xcache := none, xsource := none,
            body := .errorBody "Impossibile recuperare il feed",
            cacheAfter := cache, attempted := [.rssbridge] }
      | some data =>
          let nd := bridgeNormalize data feedUrl host env.isoOfTs env.nowIso
          { status := 200, xcache := some "MISS", xsource := some "RSSBridge",
            body := .feedBody nd,
            cacheAfter := jsMapSet cache feedUrl ⟨nd, env.nowMs⟩,
            attempted := [.rssbridge] }

/-- The cache read guarded by the bypass flag and the lazy TTL check
(rss.js lines 47-57). -/
def cachedFreshEntry (bypass : Bool) (env : FetchEnv)
    (cache : List (String × CacheEntry)) (feedUrl : String) : Option CacheEntry :=
  if bypass then none
  else
    match jsMapGet cache feedUrl with
    | some cd => if env.nowMs - cd.timestamp < CACHE_TTL then some cd else none
    | none => none

def rssHandler (method : String) (q : RssQuery) (env : FetchEnv)
    (cache : List (String × CacheEntry)) : HandlerResult :=
  if method = "OPTIONS" then
    { status := 200, xcache := none, xsource := none, body := .emptyBody,
      cacheAfter := cache, attempted := [] }
  else
    -- `if (!url)` (rss.js line 37): an absent and an empty url are both falsy
    match q.url with
    | none =>
        { status := 400, xcache := none, xsource := none,
          body := .errorBody "URL parametro mancante",
          cacheAfter := cache, attempted := [] }
    | some feedUrl =>
      if feedUrl = "" then
        { status := 400, xcache := none, xsource := none,
          body := .errorBody "URL parametro mancante",
          cacheAfter := cache, attempted := [] }
      else
        match cachedFreshEntry (q.bypassCache == some "true") env cache feedUrl with
        | some cd =>
            { status := 200, xcache := some "HIT", xsource := none,
              body := .feedBody cd.data, cacheAfter := cache, attempted := [] }
        | none =>
            match env.directFetch with
            | some rawXml =>
                match normalizeFeed rawXml feedUrl env.parseXml env.nowIso with
                | some nf =>
                    { status := 200, xcache := some "MISS", xsource := none,
                      body := .feedBody nf,
                      cacheAfter := jsMapSet cache feedUrl ⟨nf, env.nowMs⟩,
                      attempted := [.direct] }
                | none =>
                    let r := tryRssBridgeFallback feedUrl env cache
                    { r with attempted := .direct :: r.attempted }
            | none =>
                let r := tryRssBridgeFallback feedUrl env cache
                { r with attempted := .direct :: r.attempted }

/-! ## The image-proxy cache sweep (api/image-proxy.js lines 152-167) -/

structure ImageCacheEntry where
  data : String
  contentType : String
  timestamp : Nat
deriving DecidableEq, Repr

/-- The `oldestKeys` of the sweep: the keys of the first 300 entries after
the stable sort by timestamp.  JS `Array.prototype.sort` is stable, which
insertion sort models exactly. -/
def sweepOldKeys (m : List (String × ImageCacheEntry)) : List String :=
  ((m.insertionSort (fun a b => a.2.timestamp ≤ b.2.timestamp)).take 300).map (fun e => e.1)

/-- The sweep run after every cache write: when more than 1000 entries are
present, the entries under the 300 oldest-by-timestamp keys are deleted. -/
def imageCacheSweep (m : List (String × ImageCacheEntry)) :
    List (String × ImageCacheEntry) :=
  if m.length > 1000 then
    (sweepOldKeys m).foldl (fun acc k => jsMapDelete acc k) m
  else m

/-! ## The whitelist feed-proxy variant (src/unnamed/part_004) -/

def allowedDomains : List String :=
  ["wired.it", "ilpost.it", "repubblica.it", "ansa.it", "italiastartup.it"]

structure ProxyResult where
  status : Nat
  fetchIssued : Bool
  domainChecked : Option String
deriving DecidableEq, Repr

/-- The whitelist handler: `hostnameOf` is the outcome of `new URL(feedUrl)
.hostname` (`none` when the constructor throws), `fetchOutcome` the upstream
fetch result (`none` when fetch throws; otherwise status and body text). -/
def rssProxyWhitelist (method : String) (urlParam : Option String)
    (hostnameOf : Option String) (fetchOutcome : Option (Nat × String)) : ProxyResult :=
  if method = "OPTIONS" then ⟨200, false, none⟩
  else
    -- `if (!url)` (part_004 line 21): an absent and an empty url are both falsy
    match urlParam with
    | none => ⟨400, false, none⟩
    | some u =>
      if u = "" then ⟨400, false, none⟩
      else
        match hostnameOf with
        | none => ⟨500, false, none⟩
        | some host =>
            let domain := jsReplaceFirst host "www." ""
            if (allowedDomains.any (fun a => jsEndsWith domain a)) = false then
              ⟨403, false, some domain⟩
            else
              match fetchOutcome with
              | none => ⟨500, true, some domain⟩
              | some st =>
                  if 200 ≤ st.1 ∧ st.1 < 300 then ⟨200, true, some domain⟩
                  else ⟨st.1, true, some domain⟩

/-! ## Concrete inputs for witnesses and counterexamples -/

def pd0 : ParsedDoc :=
  { feed := none,
    rss := some ⟨some { title := some "Feed T", description := none, link := none,
                        item := none }⟩,
    channel := none }

def nf0 : NormalizedFeed :=
  { feedType := "rss", title := some "Feed T", description := some "",
    link := some "https://example.com/feed", items := [] }

def env0 : FetchEnv :=
  { directFetch := some "<rss></rss>", parseXml := fun _ => some pd0,
    bridgeHost := none, bridgeFetch := none, nowMs := 5, nowIso := "NOW",
    isoOfTs := fun _ => "TS" }

def q0 : RssQuery :=
  { url := some "https://example.com/feed", debug := none, bypassCache := none }

def cache1 : List (String × CacheEntry) := [("https://example.com/feed", ⟨nf0, 0⟩)]

example : (rssHandler "GET" ⟨some "", none, none⟩ env0 []).status = 400 ∧
    (rssHandler "GET" ⟨some "", none, none⟩ env0 []).attempted = [] := by decide

example : (rssProxyWhitelist "GET" (some "") none none).status = 400 ∧
    (rssProxyWhitelist "GET" (some "") none none).fetchIssued = false := by decide

/-! ## Claim C1: the orchestrator's fallback sequence -/

/-- C1: for a request that passes the falsy-url 400 guard (a truthy, hence
non-empty, url parameter) and that the cache does not serve, if the direct
strategy succeeds only it is attempted and its result is normalized, cached
and returned; if it fails (fetch failure or unrecognizable body) the
RSSBridge strategy is entered, whose success is cached and returned with
status 200 (an earlier failure never surfaces); the 404 response appears
exactly when both strategies have failed, and then nothing is cached. -/
theorem claimC1 (method : String) (q : RssQuery) (env : FetchEnv)
    (cache : List (String × CacheEntry)) (feedUrl : String)
    (hm : method ≠ "OPTIONS") (hu : q.url = some feedUrl) (hne : feedUrl ≠ "")
    (hmiss : cachedFreshEntry (q.bypassCache == some "true") env cache feedUrl = none) :
    (∀ raw nf, env.directFetch = some raw →
      normalizeFeed raw feedUrl env.parseXml env.nowIso = some nf →
      (rssHandler method q env cache).attempted = [.direct] ∧
      (rssHandler method q env cache).status = 200 ∧
      (rssHandler method q env cache).body = .feedBody nf ∧
      (rssHandler method q env cache).cacheAfter = jsMapSet cache feedUrl ⟨nf, env.nowMs⟩) ∧
    (∀ host data,
      (env.directFetch = none ∨ ∃ raw, env.directFetch = some raw ∧
        normalizeFeed raw feedUrl env.parseXml env.nowIso = none) →
      env.bridgeHost = some host → env.bridgeFetch = some data →
      (rssHandler method q env cache).attempted = [.direct, .rssbridge] ∧
      (rssHandler method q env cache).status = 200 ∧
      (rssHandler method q env cache).body =
        .feedBody (bridgeNormalize data feedUrl host env.isoOfTs env.nowIso) ∧
      (rssHandler method q env cache).cacheAfter = jsMapSet cache feedUrl
        ⟨bridgeNormalize data feedUrl host env.isoOfTs env.nowIso, env.nowMs⟩) ∧
    ((env.directFetch = none ∨ ∃ raw, env.directFetch = some raw ∧
        normalizeFeed raw feedUrl env.parseXml env.nowIso = none) →
      (env.bridgeHost = none ∨ env.bridgeFetch = none) →
      (rssHandler method q env cache).status = 404 ∧
      (rssHandler method q env cache).cacheAfter = cache ∧
      (rssHandler method q env cache).attempted = [.direct, .rssbridge]) := by
  refine ⟨?_, ?_, ?_⟩
  · intro raw nf hraw hnf
    simp [rssHandler, hm, hu, hne, hmiss, hraw, hnf]
  · intro host data hfail hhost hdata
    rcases hfail with hraw | ⟨raw, hraw, hnf⟩
    · simp [rssHandler, tryRssBridgeFallback, hm, hu, hne, hmiss, hraw, hhost, hdata]
    · simp [rssHandler, tryRssBridgeFallback, hm, hu, hne, hmiss, hraw, hnf, hhost, hdata]
  · intro hfail hbfail
    rcases hfail with hraw | ⟨raw, hraw, hnf⟩ <;>
      rcases hbfail with hb | hb
    · rcases hh : env.bridgeHost with _ | host
      · simp [rssHandler, tryRssBridgeFallback, hm, hu, hne, hmiss, hraw, hh]
      · exact absurd hh (by rw [hb]; simp)
    · rcases hh : env.bridgeHost with _ | host
      · simp [rssHandler, tryRssBridgeFallback, hm, hu, hne, hmiss, hraw, hh]
      · simp [rssHandler, tryRssBridgeFallback, hm, hu, hne, hmiss, hraw, hh, hb]
    · rcases hh : env.bridgeHost with _ | host
      · simp [rssHandler, tryRssBridgeFallback, hm, hu, hne, hmiss, hraw, hnf, hh]
      · exact absurd hh (by rw [hb]; simp)
    · rcases hh : env.bridgeHost with _ | host
      · simp [rssHandler, tryRssBridgeFallback, hm, hu, hne, hmiss, hraw, hnf, hh]
      · simp [rssHandler, tryRssBridgeFallback, hm, hu, hne, hmiss, hraw, hnf, hh, hb]

theorem claimC1_wit :
    (rssHandler "GET" q0 env0 []).attempted = [Strategy.direct] ∧
    (rssHandler "GET" q0 env0 []).status = 200 ∧
    (rssHandler "GET" q0 env0 []).body = RespBody.feedBody nf0 ∧
    (rssHandler "GET" q0 env0 []).cacheAfter =
      jsMapSet [] "https://example.com/feed" ⟨nf0, env0.nowMs⟩ :=
  (claimC1 "GET" q0 env0 [] "https://example.com/feed" (by decide) rfl (by decide) rfl).1
    "<rss></rss>" nf0 rfl rfl

/-! ## Claim C3: cache hit/miss behaviour of the handler -/

/-- C3: for a request that passes the falsy-url 400 guard (a truthy, hence
non-empty, url parameter): when its key holds a fresh cache entry and it
does not bypass the cache, it is answered with the stored normalized value
unchanged, header `X-Cache: HIT`, and an unchanged cache; when the cache
does not serve it (absent key, stale entry, or bypass) and the direct fetch
succeeds, the fresh result is stored and the answer carries `X-Cache:
MISS`; a bypassing request never reads the cache. -/
theorem claimC3 (method : String) (q : RssQuery) (env : FetchEnv)
    (cache : List (String × CacheEntry)) (feedUrl : String)
    (hm : method ≠ "OPTIONS") (hu : q.url = some feedUrl) (hne : feedUrl ≠ "") :
    (∀ cd, q.bypassCache ≠ some "true" →
      jsMapGet cache feedUrl = some cd → env.nowMs - cd.timestamp < CACHE_TTL →
      (rssHandler method q env cache).status = 200 ∧
      (rssHandler method q env cache).body = .feedBody cd.data ∧
      (rssHandler method q env cache).xcache = some "HIT" ∧
      (rssHandler method q env cache).cacheAfter = cache) ∧
    (∀ raw nf,
      cachedFreshEntry (q.bypassCache == some "true") env cache feedUrl = none →
      env.directFetch = some raw →
      normalizeFeed raw feedUrl env.parseXml env.nowIso = some nf →
      (rssHandler method q env cache).xcache = some "MISS" ∧
      (rssHandler method q env cache).body = .feedBody nf ∧
      (rssHandler method q env cache).cacheAfter = jsMapSet cache feedUrl ⟨nf, env.nowMs⟩) ∧
    (q.bypassCache = some "true" →
      cachedFreshEntry (q.bypassCache == some "true") env cache feedUrl = none) := by
  refine ⟨?_, ?_, ?_⟩
  · intro cd hb hget httl
    have hfresh : cachedFreshEntry (q.bypassCache == some "true") env cache feedUrl =
        some cd := by
      have hbb : (q.bypassCache == some "true") = false := by
        simp only [beq_eq_false_iff_ne]
        exact hb
      simp [cachedFreshEntry, hbb, hget, httl]
    simp [rssHandler, hm, hu, hne, hfresh]
  · intro raw nf hmiss hraw hnf
    simp [rssHandler, hm, hu, hne, hmiss, hraw, hnf]
  · intro hb
    simp [cachedFreshEntry, hb]

theorem claimC3_wit :
    (rssHandler "GET" q0 env0 cache1).status = 200 ∧
    (rssHandler "GET" q0 env0 cache1).body = RespBody.feedBody nf0 ∧
    (rssHandler "GET" q0 env0 cache1).xcache = some "HIT" ∧
    (rssHandler "GET" q0 env0 cache1).cacheAfter = cache1 :=
  (claimC3 "GET" q0 env0 cache1 "https://example.com/feed" (by decide) rfl (by decide)).1
    ⟨nf0, 0⟩ (by decide) rfl (by decide)

/-! ## Claim C4: the id fallback chain -/

/-- An RSS item carrying neither a guid nor a link. -/
def itemNoId : RssItem :=
  { guid := none, title := none, link := none, contentEncoded := none,
    description := none, pubDate := none, date := none, category := none,
    author := none, dcCreator := none, enclosure := none, mediaContent := none,
    mediaThumbnail := none, image := none }

def pdNoId : ParsedDoc :=
  { feed := none,
    rss := some ⟨some { title := none, description := none, link := none,
                        item := some (.one itemNoId) }⟩,
    channel := none }

/-- C4 counterexample: an RSS item with neither guid nor link normalizes to
an item whose id is absent (`undefined`), not a non-empty string. -/
theorem claimC4_cex :
    (normalizeRssFeed pdNoId "https://example.com/f" "NOW").map
      (fun nf => nf.items.map (fun it => it.id)) = some [none] := by decide

/-- C4 (amended): on every normalization path the id is exactly the fallback
chain of the source (RSS: unwrapped truthy guid else link; Atom: truthy id
else derived article link; aggregator: truthy uid else uri), and the id is a
non-empty string provided the selected source is: for RSS, whenever the item
has a non-empty link and any guid object unwraps to non-empty text; for Atom
and the aggregator, whenever the id (resp. uid) is non-empty or the fallback
is a non-empty string.  An item whose whole chain is absent or empty yields
an absent or empty id. -/
theorem claimC4 (it : RssItem) (e : AtomEntry) (b : BridgeItem) (t : String)
    (ot dt : Option String) (now host : String) (iso : Nat → String) :
    ((rssMapItem t now it).id = rssItemId it) ∧
    ((atomMapEntry ot now e).id = jsOrO e.id (atomArticleLink e)) ∧
    ((bridgeMapItem dt host iso now b).id = jsOrO b.uid b.uri) ∧
    (∀ l, it.link = some l → l ≠ "" →
      (match it.guid with
       | some (.obj u) => ∃ gt, u = some gt ∧ gt ≠ ""
       | _ => True) →
      ∃ s, rssItemId it = some s ∧ s ≠ "") ∧
    ((∃ s, e.id = some s ∧ s ≠ "") ∨ (∃ al, atomArticleLink e = some al ∧ al ≠ "") →
      ∃ s, (atomMapEntry ot now e).id = some s ∧ s ≠ "") ∧
    ((∃ s, b.uid = some s ∧ s ≠ "") ∨ (∃ s, b.uri = some s ∧ s ≠ "") →
      ∃ s, (bridgeMapItem dt host iso now b).id = some s ∧ s ≠ "") := by
  refine ⟨rfl, rfl, rfl, ?_, ?_, ?_⟩
  · intro l hlink hl hguid
    rcases hg : it.guid with _ | tv
    · exact ⟨l, by simp [rssItemId, hg, hlink], hl⟩
    · rcases tv with s | u
      · by_cases hs : s = ""
        · exact ⟨l, by simp [rssItemId, hg, hs, hlink], hl⟩
        · exact ⟨s, by simp [rssItemId, hg, hs], hs⟩
      · rw [hg] at hguid
        obtain ⟨gt, hu, hgt⟩ := hguid
        exact ⟨gt, by simp [rssItemId, hg, hu], hgt⟩
  · intro hor
    show ∃ s, jsOrO e.id (atomArticleLink e) = some s ∧ s ≠ ""
    rcases hid : e.id with _ | s
    · rcases hor with ⟨s, hs, _⟩ | ⟨al, hal, hne⟩
      · rw [hid] at hs; cases hs
      · exact ⟨al, by simp [jsOrO, hal], hne⟩
    · by_cases hs : s = ""
      · rcases hor with ⟨s', hs', hne'⟩ | ⟨al, hal, hne⟩
        · rw [hid] at hs'
          cases hs'
          exact absurd hs hne'
        · exact ⟨al, by simp [jsOrO, hs, hal], hne⟩
      · exact ⟨s, by simp [jsOrO, hs], hs⟩
  · intro hor
    show ∃ s, jsOrO b.uid b.uri = some s ∧ s ≠ ""
    rcases hid : b.uid with _ | s
    · rcases hor with ⟨s, hs, _⟩ | ⟨u, hu, hne⟩
      · rw [hid] at hs; cases hs
      · exact ⟨u, by simp [jsOrO, hu], hne⟩
    · by_cases hs : s = ""
      · rcases hor with ⟨s', hs', hne'⟩ | ⟨u, hu, hne⟩
        · rw [hid] at hs'
          cases hs'
          exact absurd hs hne'
        · exact ⟨u, by simp [jsOrO, hs, hu], hne⟩
      · exact ⟨s, by simp [jsOrO, hs], hs⟩

def itemWithLink : RssItem := { itemNoId with link := some "https://example.com/p" }

def entryWithId : AtomEntry :=
  { id := some "urn:e1", title := none, link := none, content := none,
    summary := none, category := none, published := none, updated := none,
    issued := none, author := none, icon := none, logo := none,
    mediaThumbnail := none, mediaContent := none }

def bitemWithUid : BridgeItem :=
  { uid := some "u1", uri := none, title := none, content := none,
    timestamp := none, categories := none, author := none, enclosures := none }

theorem claimC4_wit :
    ((rssMapItem "T" "NOW" itemWithLink).id = rssItemId itemWithLink) ∧
    (∃ s, rssItemId itemWithLink = some s ∧ s ≠ "") ∧
    (∃ s, (atomMapEntry (some "T") "NOW" entryWithId).id = some s ∧ s ≠ "") ∧
    (∃ s, (bridgeMapItem none "h" (fun _ => "TS") "NOW" bitemWithUid).id = some s ∧ s ≠ "") :=
  have h := claimC4 itemWithLink entryWithId bitemWithUid "T" (some "T") none "NOW" "h"
    (fun _ => "TS")
  ⟨h.1,
   h.2.2.2.1 "https://example.com/p" rfl (by decide) (by simp [itemWithLink, itemNoId]),
   h.2.2.2.2.1 (Or.inl ⟨"urn:e1", rfl, by decide⟩),
   h.2.2.2.2.2 (Or.inl ⟨"u1", rfl, by decide⟩)⟩

/-! ## Claim C5: the Atom content-derived description -/

def longContent : String := String.mk (List.replicate 200 'a')

def entryLong : AtomEntry :=
  { id := some "e", title := none, link := none, content := some (.str longContent),
    summary := none, category := none, published := none, updated := none,
    issued := none, author := none, icon := none, logo := none,
    mediaThumbnail := none, mediaContent := none }

/-- C5 counterexample: a summary-less entry whose content is 200 plain
characters yields a derived description of 203 characters (the 200-character
excerpt plus the appended three-character ellipsis), refuting the claimed
200-character bound. -/
theorem claimC5_cex :
    (atomMapEntry (some "T") "NOW" entryLong).description =
      some (String.mk (List.replicate 200 'a') ++ "...") ∧
    ((atomMapEntry (some "T") "NOW" entryLong).description.getD "").length = 203 ∧
    ¬ ((atomMapEntry (some "T") "NOW" entryLong).description.getD "").length ≤ 200 := by
  refine ⟨by decide, by decide, by decide⟩

/-- C5 (amended): for every Atom entry without a truthy summary but with
truthy content, the item's description is the content with tag-shaped runs
replaced by spaces, truncated to 200 characters, with a three-character
ellipsis appended — hence at most 203 characters long (not 200). -/
theorem claimC5 (e : AtomEntry) (ot : Option String) (now : String)
    (hsum : jsTruthyT e.summary = false)
    (hcon : jsTruthyS (atomContentVar e) = true) :
    (atomMapEntry ot now e).description =
      some (jsSubstring (String.mk (stripTagsList ((atomContentVar e).getD "").data)) 200
        ++ "...") ∧
    ∀ d, (atomMapEntry ot now e).description = some d → d.length ≤ 203 := by
  have hd : (atomMapEntry ot now e).description =
      some (jsSubstring (String.mk (stripTagsList ((atomContentVar e).getD "").data)) 200
        ++ "...") := by
    simp [atomMapEntry, hsum, hcon]
  refine ⟨hd, ?_⟩
  intro d hdd
  rw [hd] at hdd
  cases hdd
  have hlen : (jsSubstring (String.mk (stripTagsList ((atomContentVar e).getD "").data)) 200).length ≤ 200 := by
    show (List.take 200 _).length ≤ 200
    rw [List.length_take]
    omega
  calc (jsSubstring (String.mk (stripTagsList ((atomContentVar e).getD "").data)) 200
          ++ "...").length
      = (jsSubstring (String.mk (stripTagsList ((atomContentVar e).getD "").data)) 200).length
          + 3 := by rw [String.length_append]; rfl
    _ ≤ 203 := by omega

theorem claimC5_wit :
    jsTruthyT entryLong.summary = false ∧
    jsTruthyS (atomContentVar entryLong) = true ∧
    (atomMapEntry (some "T") "NOW" entryLong).description =
      some (jsSubstring (String.mk (stripTagsList ((atomContentVar entryLong).getD "").data))
        200 ++ "...") ∧
    ∀ d, (atomMapEntry (some "T") "NOW" entryLong).description = some d → d.length ≤ 203 :=
  have h := claimC5 entryLong (some "T") "NOW" (by decide) (by decide)
  ⟨by decide, by decide, h.1, h.2⟩

/-! ## Claim C6: sourceName propagation -/

def bitem0 : BridgeItem :=
  { uid := none, uri := none, title := none, content := none, timestamp := none,
    categories := none, author := none, enclosures := none }

def bdNoTitle : BridgeData := { title := none, description := none, items := [bitem0] }

/-- C6 counterexample: on the aggregator path with an untitled bridge
response, every item's sourceName is the hostname (first `www.` removed)
while the feed title is the fixed fallback `Feed da RSSBridge` — the two
differ. -/
theorem claimC6_cex :
    ((bridgeNormalize bdNoTitle "https://example.com/f" "example.com" (fun _ => "TS")
        "NOW").items.map (fun it => it.sourceName)) = [some "example.com"] ∧
    (bridgeNormalize bdNoTitle "https://example.com/f" "example.com" (fun _ => "TS")
        "NOW").title = some "Feed da RSSBridge" ∧
    (some "example.com" : Option String) ≠ some "Feed da RSSBridge" := by
  refine ⟨by decide, by decide, by decide⟩

/-- C6 (amended): every item's sourceName equals the feed's title on the RSS
and Atom paths unconditionally, and on the aggregator path whenever the
bridge data carries a truthy title; an untitled bridge response instead
gives items the feed hostname (first `www.` removed) as sourceName while the
feed title falls back to `Feed da RSSBridge`. -/
theorem claimC6 :
    (∀ (pd : ParsedDoc) (url now : String) (nf : NormalizedFeed),
      normalizeRssFeed pd url now = some nf →
      ∀ it ∈ nf.items, it.sourceName = nf.title) ∧
    (∀ (pd : ParsedDoc) (url now : String) (nf : NormalizedFeed),
      normalizeAtomFeed pd url now = some nf →
      ∀ it ∈ nf.items, it.sourceName = nf.title) ∧
    (∀ (data : BridgeData) (url host now : String) (iso : Nat → String),
      jsTruthyS data.title = true →
      ∀ it ∈ (bridgeNormalize data url host iso now).items,
        it.sourceName = (bridgeNormalize data url host iso now).title) := by
  refine ⟨?_, ?_, ?_⟩
  · intro pd url now nf h it hit
    rcases hr : pd.rss with _ | r
    · rcases hc : pd.channel with _ | ch
      · simp [normalizeRssFeed, hr, hc] at h
      · simp only [normalizeRssFeed, hr, hc, Option.some.injEq] at h
        subst h
        simp only [List.mem_map] at hit
        obtain ⟨x, _, hxeq⟩ := hit
        rw [← hxeq]
        rfl
    · rcases hc : r.channel with _ | ch
      · simp [normalizeRssFeed, hr, hc] at h
      · simp only [normalizeRssFeed, hr, hc, Option.some.injEq] at h
        subst h
        simp only [List.mem_map] at hit
        obtain ⟨x, _, hxeq⟩ := hit
        rw [← hxeq]
        rfl
  · intro pd url now nf h it hit
    rcases hf : pd.feed with _ | feed
    · simp [normalizeAtomFeed, hf] at h
    · simp only [normalizeAtomFeed, hf, Option.some.injEq] at h
      subst h
      simp only [List.mem_map] at hit
      obtain ⟨x, _, hxeq⟩ := hit
      rw [← hxeq]
      rfl
  · intro data url host now iso htruthy it hit
    rcases hdt : data.title with _ | s
    · rw [hdt] at htruthy; cases htruthy
    · have hs : ¬ s = "" := by
        rw [hdt] at htruthy
        simpa [jsTruthyS] using htruthy
      simp only [bridgeNormalize, List.mem_map] at hit
      obtain ⟨x, _, hxeq⟩ := hit
      rw [← hxeq]
      simp [bridgeMapItem, bridgeNormalize, hdt, jsOrD, hs]

theorem claimC6_wit :
    normalizeRssFeed pdNoId "https://example.com/f" "NOW" =
      some { feedType := "rss", title := some "Feed senza titolo",
             description := some "", link := some "https://example.com/f",
             items := [rssMapItem "Feed senza titolo" "NOW" itemNoId] } ∧
    ∀ it ∈ [rssMapItem "Feed senza titolo" "NOW" itemNoId],
      it.sourceName = some "Feed senza titolo" :=
  ⟨by decide,
   fun it hit => by
     have h := claimC6.1 pdNoId "https://example.com/f" "NOW"
       { feedType := "rss", title := some "Feed senza titolo", description := some "",
         link := some "https://example.com/f",
         items := [rssMapItem "Feed senza titolo" "NOW" itemNoId] } (by decide) it hit
     exact h⟩

/-! ## Claim C7: the image-cache sweep -/

theorem contains_eq_true_of_mem {a : String} {l : List String} (h : a ∈ l) :
    l.contains a = true := List.elem_iff.mpr h

theorem contains_eq_false_of_not_mem {a : String} {l : List String} (h : ¬ a ∈ l) :
    l.contains a = false := by
  cases hc : l.contains a
  · rfl
  · exact absurd (List.elem_iff.mp hc) h

theorem mem_of_contains_eq_true {a : String} {l : List String} (h : l.contains a = true) :
    a ∈ l := List.elem_iff.mp h

theorem not_mem_of_contains_eq_false {a : String} {l : List String}
    (h : l.contains a = false) : ¬ a ∈ l := by
  intro hm
  rw [contains_eq_true_of_mem hm] at h
  cases h

/-- Folding `Map.delete` over a key list removes exactly the entries whose
key is in the list. -/
theorem foldl_delete_eq_filter {κ α : Type} [DecidableEq κ] :
    ∀ (ks : List κ) (m : List (κ × α)),
      ks.foldl (fun acc k => jsMapDelete acc k) m =
        m.filter (fun e => !(ks.contains e.1)) := by
  intro ks
  induction ks with
  | nil =>
      intro m
      simp
  | cons k ks ih =>
      intro m
      simp only [List.foldl_cons]
      rw [ih]
      unfold jsMapDelete
      rw [List.filter_filter]
      apply List.filter_congr
      intro e _
      by_cases h1 : e.1 = k <;> by_cases h2 : e.1 ∈ ks <;> simp [h1, h2]

/-- For any timestamp-sorted permutation `S` of a distinct-key map `m`,
filtering away the keys of `S.take 300` removes exactly 300 entries, and
every removed entry's timestamp is at most every retained one's. -/
theorem sweep_general_aux (m S : List (String × ImageCacheEntry))
    (hperm : List.Perm S m)
    (hsorted : List.Sorted (fun a b => a.2.timestamp ≤ b.2.timestamp) S)
    (hkeys : (m.map (fun e => e.1)).Nodup) :
    (m.filter (fun e => !(((S.take 300).map (fun x => x.1)).contains e.1))).length
        = m.length - 300 ∧
    (∀ e ∈ m, ((S.take 300).map (fun x => x.1)).contains e.1 = true →
      ∀ e2 ∈ m, ((S.take 300).map (fun x => x.1)).contains e2.1 = false →
      e.2.timestamp ≤ e2.2.timestamp) := by
  have hkS : (S.map (fun e => e.1)).Nodup := (hperm.map (fun e => e.1)).nodup_iff.mpr hkeys
  have hsplit : S = S.take 300 ++ S.drop 300 := (List.take_append_drop 300 S).symm
  have hkApp : ((S.take 300).map (fun e => e.1) ++ (S.drop 300).map (fun e => e.1)).Nodup := by
    rw [← List.map_append, ← hsplit]
    exact hkS
  have hdisj : List.Disjoint ((S.take 300).map (fun e => e.1))
      ((S.drop 300).map (fun e => e.1)) := (List.nodup_append.mp hkApp).2.2
  have hdropKey : ∀ e ∈ S.drop 300, ¬ (e.1 ∈ (S.take 300).map (fun x => x.1)) := by
    intro e he hin
    exact hdisj hin (List.mem_map_of_mem (fun e => e.1) he)
  have hSlen : S.length = m.length := hperm.length_eq
  have hfSgen : ∀ ok : List String,
      (∀ e ∈ S.take 300, e.1 ∈ ok) → (∀ e ∈ S.drop 300, ¬ e.1 ∈ ok) →
      S.filter (fun e => !(ok.contains e.1)) = S.drop 300 := by
    intro ok hin hout
    conv_lhs => rw [hsplit]
    rw [List.filter_append]
    rw [List.filter_eq_nil_iff.mpr ?jempty, List.filter_eq_self.mpr ?jfull, List.nil_append]
    case jempty =>
      intro e he
      rw [contains_eq_true_of_mem (hin e he)]
      simp
    case jfull =>
      intro e he
      rw [contains_eq_false_of_not_mem (hout e he)]
      rfl
  have hfS : S.filter (fun e => !(((S.take 300).map (fun x => x.1)).contains e.1))
      = S.drop 300 :=
    hfSgen ((S.take 300).map (fun x => x.1))
      (fun e he => List.mem_map_of_mem (fun x => x.1) he) hdropKey
  constructor
  · have hpf := (hperm.filter
      (fun e => !(((S.take 300).map (fun x => x.1)).contains e.1))).length_eq
    rw [← hpf, hfS, List.length_drop, hSlen]
  · intro e hem hcont e2 hem2 hcont2
    have heS : e ∈ S := hperm.mem_iff.mpr hem
    have heS2 : e2 ∈ S := hperm.mem_iff.mpr hem2
    have hcontMem : e.1 ∈ (S.take 300).map (fun x => x.1) :=
      mem_of_contains_eq_true hcont
    have hcontMem2 : ¬ (e2.1 ∈ (S.take 300).map (fun x => x.1)) :=
      not_mem_of_contains_eq_false hcont2
    have hpw : List.Pairwise (fun a b : String × ImageCacheEntry =>
        a.2.timestamp ≤ b.2.timestamp) (S.take 300 ++ S.drop 300) := by
      rw [← hsplit]; exact hsorted
    have htake : e ∈ S.take 300 := by
      have hor : e ∈ S.take 300 ++ S.drop 300 := by rw [← hsplit]; exact heS
      rcases List.mem_append.mp hor with h | h
      · exact h
      · exact absurd hcontMem (hdropKey e h)
    have hdrop : e2 ∈ S.drop 300 := by
      have hor : e2 ∈ S.take 300 ++ S.drop 300 := by rw [← hsplit]; exact heS2
      rcases List.mem_append.mp hor with h | h
      · exact absurd (List.mem_map_of_mem (fun x => x.1) h) hcontMem2
      · exact h
    exact (List.pairwise_append.mp hpw).2.2 e htake e2 hdrop

theorem sweep_eq_filter (m : List (String × ImageCacheEntry)) (hlen : m.length > 1000) :
    imageCacheSweep m = m.filter (fun e => !((sweepOldKeys m).contains e.1)) := by
  unfold imageCacheSweep
  rw [if_pos hlen]
  exact foldl_delete_eq_filter (sweepOldKeys m) m

/-- The sweep on any over-full distinct-key cache: the count drops by
exactly 300 and the evicted timestamps are minimal. -/
theorem sweep_oldest (m : List (String × ImageCacheEntry))
    (hlen : m.length > 1000) (hkeys : (m.map (fun e => e.1)).Nodup) :
    (imageCacheSweep m).length = m.length - 300 ∧
    (∀ e ∈ m, (sweepOldKeys m).contains e.1 = true →
      ∀ e2 ∈ m, (sweepOldKeys m).contains e2.1 = false →
      e.2.timestamp ≤ e2.2.timestamp) := by
  haveI : IsTotal (String × ImageCacheEntry)
      (fun a b => a.2.timestamp ≤ b.2.timestamp) := ⟨fun a b => Nat.le_total _ _⟩
  haveI : IsTrans (String × ImageCacheEntry)
      (fun a b => a.2.timestamp ≤ b.2.timestamp) :=
    ⟨fun _ _ _ hab hbc => Nat.le_trans hab hbc⟩
  have hperm := List.perm_insertionSort
    (fun a b : String × ImageCacheEntry => a.2.timestamp ≤ b.2.timestamp) m
  have hsorted := List.sorted_insertionSort
    (fun a b : String × ImageCacheEntry => a.2.timestamp ≤ b.2.timestamp) m
  have aux := sweep_general_aux m
    (m.insertionSort (fun a b => a.2.timestamp ≤ b.2.timestamp)) hperm hsorted hkeys
  constructor
  · rw [sweep_eq_filter m hlen]
    exact aux.1
  · exact aux.2

/-- C7 (amended): whenever the entry count exceeds the 1000-entry high-water
mark (keys distinct, as a JS Map guarantees), the single-pass sweep deletes
the entries under the keys of the 300 oldest-by-stable-timestamp-sort
entries — a fixed count, roughly the oldest third at the mark, not an exact
third of the current count — so the count drops by exactly 300 and every
retained entry was written no earlier than every evicted one. -/
theorem claimC7 (m : List (String × ImageCacheEntry))
    (hlen : m.length > 1000)
    (hkeys : (m.map (fun e => e.1)).Nodup) :
    imageCacheSweep m = m.filter (fun e => !((sweepOldKeys m).contains e.1)) ∧
    (imageCacheSweep m).length = m.length - 300 ∧
    (imageCacheSweep m).length < m.length ∧
    (∀ e ∈ m, (sweepOldKeys m).contains e.1 = true →
      ∀ e2 ∈ m, (sweepOldKeys m).contains e2.1 = false →
      e.2.timestamp ≤ e2.2.timestamp) := by
  have h := sweep_oldest m hlen hkeys
  refine ⟨sweep_eq_filter m hlen, h.1, ?_, h.2⟩
  have := h.1
  omega

def imgEntry (i : Nat) : ImageCacheEntry := ⟨"", "", i⟩

def keyOf (i : Nat) : String := String.mk (List.replicate i 'k')

def bigCache : List (String × ImageCacheEntry) :=
  (List.range 1001).map (fun i => (keyOf i, imgEntry i))

theorem bigCache_len : bigCache.length = 1001 := by simp [bigCache]

theorem bigCache_nodup : (bigCache.map (fun e => e.1)).Nodup := by
  unfold bigCache
  rw [List.map_map]
  apply List.Nodup.map
  · intro i j hij
    have hlen2 : (keyOf i).data.length = (keyOf j).data.length := by
      simp only [Function.comp] at hij
      rw [hij]
    simpa [keyOf] using hlen2
  · exact List.nodup_range 1001

/-- C7 counterexample: at 1001 entries the sweep evicts exactly 300 of them,
and 300 is not a third of 1001 (which is 333 rounded down), so the sweep
does not evict "the oldest third of the entries". -/
theorem claimC7_cex :
    bigCache.length - (imageCacheSweep bigCache).length = 300 ∧
    300 ≠ bigCache.length / 3 := by
  have h := (sweep_oldest bigCache (by rw [bigCache_len]; omega) bigCache_nodup).1
  constructor
  · rw [h, bigCache_len]
  · rw [bigCache_len]
    decide

theorem claimC7_wit :
    bigCache.length > 1000 ∧
    (bigCache.map (fun e => e.1)).Nodup ∧
    imageCacheSweep bigCache =
      bigCache.filter (fun e => !((sweepOldKeys bigCache).contains e.1)) ∧
    (imageCacheSweep bigCache).length = bigCache.length - 300 ∧
    (imageCacheSweep bigCache).length < bigCache.length :=
  have h := claimC7 bigCache (by rw [bigCache_len]; omega) bigCache_nodup
  ⟨by rw [bigCache_len]; omega, bigCache_nodup, h.1, h.2.1, h.2.2.1⟩

/-! ## Claim C10: the whitelist proxy's 403 gate -/

/-- Removing a *leading* `www.` only — the operation the claim describes,
in contrast with the source's `hostname.replace('www.', '')`, which removes
the first occurrence anywhere. -/
def stripLeadWww (h : String) : String :=
  if jsStartsWith h "www." then String.mk (h.data.drop 4) else h

/-- C10 counterexample: hostname `wired.iwww.t` does not end with any
allowed domain after a leading-`www.` strip (there is none to strip), so the
claim demands 403 with no fetch; the code instead removes the interior
`www.`, obtains `wired.it`, accepts the domain and issues the fetch. -/
theorem claimC10_cex :
    (allowedDomains.any (fun a => jsEndsWith (stripLeadWww "wired.iwww.t") a)) = false ∧
    jsReplaceFirst "wired.iwww.t" "www." "" = "wired.it" ∧
    (rssProxyWhitelist "GET" (some "https://wired.iwww.t/feed") (some "wired.iwww.t")
        none).fetchIssued = true ∧
    (rssProxyWhitelist "GET" (some "https://wired.iwww.t/feed") (some "wired.iwww.t")
        none).status ≠ 403 := by
  refine ⟨by decide, by decide, by decide, by decide⟩

/-- C10 (amended): the handler removes the *first occurrence* of `www.`
anywhere in the hostname (not only a leading one); for every non-OPTIONS
request with a truthy (hence non-empty) url parameter whose parsed hostname,
after that replacement, does not end with one of the five hard-coded allowed
domains, it responds 403 and never issues the upstream fetch — a status
outside the spec's 400/404/500 taxonomy. -/
theorem claimC10 (method : String) (u host : String)
    (fetchOutcome : Option (Nat × String))
    (hm : method ≠ "OPTIONS") (hne : u ≠ "")
    (hdom : (allowedDomains.any
      (fun a => jsEndsWith (jsReplaceFirst host "www." "") a)) = false) :
    (rssProxyWhitelist method (some u) (some host) fetchOutcome).status = 403 ∧
    (rssProxyWhitelist method (some u) (some host) fetchOutcome).fetchIssued = false := by
  constructor <;> simp [rssProxyWhitelist, hm, hne, hdom]

theorem claimC10_wit :
    (allowedDomains.any
      (fun a => jsEndsWith (jsReplaceFirst "evil.example" "www." "") a)) = false ∧
    (rssProxyWhitelist "GET" (some "https://evil.example/feed") (some "evil.example")
        none).status = 403 ∧
    (rssProxyWhitelist "GET" (some "https://evil.example/feed") (some "evil.example")
        none).fetchIssued = false :=
  have h := claimC10 "GET" "https://evil.example/feed" "evil.example" none
    (by decide) (by decide) (by decide)
  ⟨by decide, h.1, h.2⟩

end RssProxy

